import Mathlib

/-!
# Verification of the HNF1B protein-page scripts

A shallow embedding of the two algorithmic components of the repository:

* `scripts/extract-snv-variants.py` — the variant-nomenclature parser cascade
  (`extract_snv_variants`, `extract_snv_variants_with_logging`) and the
  unparsed-variant bucketing of `generate_js_file`;
* `scripts/analyze-variant-distances.py` — the assumption-driven statistical
  test selector (`test_assumptions`), the Mann-Whitney effect sizes of
  `perform_statistical_tests`, and the hypothesis verdict of
  `print_statistical_report`.

Python strings are modelled as `List Char`; CSV rows as a structure with the
fields the scripts read; floating-point values produced by the external
statistics providers (scipy, pandas, numpy) are modelled as rationals and the
providers themselves as oracle parameters, following the repository's design
of treating them as external collaborators.  The regular-expression searches
of the extractor are embedded as deterministic left-to-right scanners that
implement exactly the leftmost-match semantics of `re.search` for the concrete
patterns appearing in the source (`\d` is modelled as the ASCII digits, the
only ones occurring in the curation data).
-/

namespace HNF1B

/-! ## Character classes of the regex patterns

`[A-Z]`, `[a-z]` and `\d` of the source patterns, as predicates on the
Unicode code point. -/

/-- The regex class `[A-Z]`. -/
def isUpperA (c : Char) : Bool := 65 ≤ c.toNat && c.toNat ≤ 90

/-- The regex class `[a-z]`. -/
def isLowerA (c : Char) : Bool := 97 ≤ c.toNat && c.toNat ≤ 122

/-- The regex class `\d` (ASCII digits). -/
def isDigitA (c : Char) : Bool := 48 ≤ c.toNat && c.toNat ≤ 57

theorem isDigitA_not_lower {c : Char} (h : isDigitA c = true) : isLowerA c = false := by
  simp [isDigitA, isLowerA] at *; omega

theorem isUpperA_not_lower {c : Char} (h : isUpperA c = true) : isLowerA c = false := by
  simp [isUpperA, isLowerA] at *; omega

theorem isUpperA_not_digit {c : Char} (h : isUpperA c = true) : isDigitA c = false := by
  simp [isUpperA, isDigitA] at *; omega

theorem isDigitA_not_upper {c : Char} (h : isDigitA c = true) : isUpperA c = false := by
  simp [isUpperA, isDigitA] at *; omega

theorem toNat_eq_of_char_eq {c d : Char} (h : c = d) : c.toNat = d.toNat := by rw [h]

theorem ne_of_toNat_ne {c d : Char} (h : c.toNat ≠ d.toNat) : c ≠ d :=
  fun hc => h (toNat_eq_of_char_eq hc)

theorem isDigitA_ne_lparen {c : Char} (h : isDigitA c = true) : c ≠ '(' := by
  apply ne_of_toNat_ne; simp [isDigitA] at h
  have he : Char.toNat '(' = 40 := rfl
  omega

theorem isUpperA_ne_lparen {c : Char} (h : isUpperA c = true) : c ≠ '(' := by
  apply ne_of_toNat_ne; simp [isUpperA] at h
  have he : Char.toNat '(' = 40 := rfl
  omega

theorem isLowerA_ne_lparen {c : Char} (h : isLowerA c = true) : c ≠ '(' := by
  apply ne_of_toNat_ne; simp [isLowerA] at h
  have he : Char.toNat '(' = 40 := rfl
  omega

theorem isDigitA_ne_p {c : Char} (h : isDigitA c = true) : c ≠ 'p' := by
  apply ne_of_toNat_ne; simp [isDigitA] at h
  have he : Char.toNat 'p' = 112 := rfl
  omega

theorem isUpperA_ne_p {c : Char} (h : isUpperA c = true) : c ≠ 'p' := by
  apply ne_of_toNat_ne; simp [isUpperA] at h
  have he : Char.toNat 'p' = 112 := rfl
  omega

/-! ## Decimal digit strings

`int()` applied to a matched digit group, and `str()`/f-string rendering of a
position, as used when building the canonical identifier. -/

/-- Value of a decimal digit string (the model of Python `int` on a `\d+`
match group). -/
def digitsToNat (l : List Char) : Nat := l.foldl (fun a c => 10 * a + (c.toNat - 48)) 0

/-- Helper for `natToChars`: first argument is fuel. -/
def natToCharsAux : Nat → Nat → List Char
  | 0, _ => []
  | _ + 1, 0 => []
  | fuel + 1, n + 1 =>
    natToCharsAux fuel ((n + 1) / 10) ++ [Char.ofNat (48 + (n + 1) % 10)]

/-- Decimal rendering of a natural number (the model of Python `str` on the
parsed position). -/
def natToChars (n : Nat) : List Char := if n = 0 then ['0'] else natToCharsAux n n

theorem digitsToNat_append_singleton (l : List Char) (c : Char) :
    digitsToNat (l ++ [c]) = 10 * digitsToNat l + (c.toNat - 48) := by
  simp [digitsToNat, List.foldl_append]

theorem natToCharsAux_zero (fuel : Nat) : natToCharsAux fuel 0 = [] := by
  cases fuel <;> rfl

theorem charOfNat_digit_toNat {d : Nat} (h : d < 10) :
    (Char.ofNat (48 + d)).toNat = 48 + d := by
  interval_cases d <;> decide

theorem charOfNat_digit_isDigitA {d : Nat} (h : d < 10) :
    isDigitA (Char.ofNat (48 + d)) = true := by
  interval_cases d <;> decide

theorem natToCharsAux_spec :
    ∀ fuel n, 0 < n → n ≤ fuel →
      natToCharsAux fuel n ≠ [] ∧ (∀ c ∈ natToCharsAux fuel n, isDigitA c = true) ∧
        digitsToNat (natToCharsAux fuel n) = n := by
  intro fuel
  induction fuel with
  | zero => intro n hn hle; omega
  | succ fuel ih =>
    intro n hn hle
    obtain ⟨m, rfl⟩ : ∃ m, n = m + 1 := ⟨n - 1, by omega⟩
    have hunf : natToCharsAux (fuel + 1) (m + 1) =
        natToCharsAux fuel ((m + 1) / 10) ++ [Char.ofNat (48 + (m + 1) % 10)] := rfl
    rw [hunf]
    have hmod : (m + 1) % 10 < 10 := Nat.mod_lt _ (by omega)
    by_cases hq : (m + 1) / 10 = 0
    · have hlt : m + 1 < 10 := by omega
      rw [hq, natToCharsAux_zero]
      refine ⟨by simp, ?_, ?_⟩
      · intro c hc
        simp at hc
        rw [hc]
        exact charOfNat_digit_isDigitA hmod
      · rw [List.nil_append]
        have hone : digitsToNat [Char.ofNat (48 + (m + 1) % 10)] =
            (Char.ofNat (48 + (m + 1) % 10)).toNat - 48 := by
          simp [digitsToNat]
        rw [hone, charOfNat_digit_toNat hmod]
        omega
    · have hqle : (m + 1) / 10 ≤ fuel := by
        have := Nat.div_lt_self (Nat.succ_pos m) (by omega : 1 < 10)
        omega
      obtain ⟨hne, hdig, hval⟩ := ih ((m + 1) / 10) (Nat.pos_of_ne_zero hq) hqle
      refine ⟨by simp, ?_, ?_⟩
      · intro c hc
        rcases List.mem_append.mp hc with h | h
        · exact hdig c h
        · simp at h
          rw [h]
          exact charOfNat_digit_isDigitA hmod
      · rw [digitsToNat_append_singleton, hval, charOfNat_digit_toNat hmod]
        omega

theorem natToChars_ne_nil (n : Nat) : natToChars n ≠ [] := by
  unfold natToChars
  by_cases h : n = 0
  · simp [h]
  · simp [h]
    exact (natToCharsAux_spec n n (Nat.pos_of_ne_zero h) le_rfl).1

theorem natToChars_digits (n : Nat) : ∀ c ∈ natToChars n, isDigitA c = true := by
  unfold natToChars
  by_cases h : n = 0
  · simp [h]
    decide
  · simp only [h, if_false]
    exact (natToCharsAux_spec n n (Nat.pos_of_ne_zero h) le_rfl).2.1

theorem digitsToNat_natToChars (n : Nat) : digitsToNat (natToChars n) = n := by
  unfold natToChars
  by_cases h : n = 0
  · simp [h]
    decide
  · simp only [h, if_false]
    exact (natToCharsAux_spec n n (Nat.pos_of_ne_zero h) le_rfl).2.2

/-! ## `takeWhile` / `dropWhile` on a digit block followed by a non-digit -/

theorem takeWhile_append_of_head_neg {p : Char → Bool} :
    ∀ (l1 l2 : List Char), (∀ c ∈ l1, p c = true) →
      (∀ c, l2.head? = some c → p c = false) →
      (l1 ++ l2).takeWhile p = l1 := by
  intro l1
  induction l1 with
  | nil =>
    intro l2 _ h2
    cases l2 with
    | nil => rfl
    | cons c t => simp [List.takeWhile, h2 c rfl]
  | cons a l1 ih =>
    intro l2 h1 h2
    have ha : p a = true := h1 a (by simp)
    simp [List.takeWhile, ha]
    exact ih l2 (fun c hc => h1 c (by simp [hc])) h2

theorem dropWhile_append_of_head_neg {p : Char → Bool} :
    ∀ (l1 l2 : List Char), (∀ c ∈ l1, p c = true) →
      (∀ c, l2.head? = some c → p c = false) →
      (l1 ++ l2).dropWhile p = l2 := by
  intro l1
  induction l1 with
  | nil =>
    intro l2 _ h2
    cases l2 with
    | nil => rfl
    | cons c t => simp [List.dropWhile, h2 c rfl]
  | cons a l1 ih =>
    intro l2 h1 h2
    have ha : p a = true := h1 a (by simp)
    simp [List.dropWhile, ha]
    exact ih l2 (fun c hc => h1 c (by simp [hc])) h2

/-! ## The regex searches of `extract-snv-variants.py`

Each Python pattern is embedded as a matcher for one start position plus a
left-to-right scanner, which is exactly the leftmost-match semantics of
`re.search`.  The only quantifiers in the source patterns are `\d+` and
`[^)]+`, whose greedy behaviour is maximal-munch here because no following
alternative can start with a digit (resp. can contain `)`), so no
backtracking into the quantifier is possible. -/

/-- Matcher for the alternate group `([A-Z][a-z]{2}|Ter|\*|X)` of the
three-letter pattern (`allowX = true` in `extract_snv_variants_with_logging`);
`extract_snv_variants` uses the same group without the `X` alternative
(`allowX = false`).  Alternatives are tried in the source order. -/
def matchAltThree (allowX : Bool) (l : List Char) : Option (List Char) :=
  match l with
  | c1 :: c2 :: c3 :: _ =>
    if isUpperA c1 ∧ isLowerA c2 ∧ isLowerA c3 then some [c1, c2, c3]
    else if c1 = 'T' ∧ c2 = 'e' ∧ c3 = 'r' then some ['T', 'e', 'r']
    else if c1 = '*' then some ['*']
    else if allowX ∧ c1 = 'X' then some ['X']
    else none
  | c1 :: _ =>
    if c1 = '*' then some ['*']
    else if allowX ∧ c1 = 'X' then some ['X']
    else none
  | [] => none

/-- Match of the three-letter pattern
`p\.([A-Z][a-z]{2})(\d+)([A-Z][a-z]{2}|Ter|\*|X)` anchored at the
head of `l`. -/
def matchThreeAt (allowX : Bool) (l : List Char) : Option (List Char × Nat × List Char) :=
  match l with
  | p :: d :: c1 :: c2 :: c3 :: rest =>
    if p = 'p' ∧ d = '.' ∧ isUpperA c1 ∧ isLowerA c2 ∧ isLowerA c3 then
      if rest.takeWhile isDigitA = [] then none
      else
        match matchAltThree allowX (rest.dropWhile isDigitA) with
        | some a => some ([c1, c2, c3], digitsToNat (rest.takeWhile isDigitA), a)
        | none => none
    else none
  | _ => none

/-- `re.search` of the three-letter pattern: leftmost match. -/
def searchThree (allowX : Bool) : List Char → Option (List Char × Nat × List Char)
  | [] => none
  | c :: t =>
    match matchThreeAt allowX (c :: t) with
    | some r => some r
    | none => searchThree allowX t

/-- Match of the single-letter pattern `p\.([A-Z])(\d+)([A-Z\*X])` anchored at
the head of `l` (the class `[A-Z\*]` of `extract_snv_variants` denotes the
same character set, since `X` is in `A-Z`). -/
def matchSingleAt (l : List Char) : Option (Char × Nat × Char) :=
  match l with
  | p :: d :: c1 :: rest =>
    if p = 'p' ∧ d = '.' ∧ isUpperA c1 then
      if rest.takeWhile isDigitA = [] then none
      else
        match rest.dropWhile isDigitA with
        | a :: _ =>
          if isUpperA a ∨ a = '*' ∨ a = 'X' then
            some (c1, digitsToNat (rest.takeWhile isDigitA), a)
          else none
        | [] => none
    else none
  | _ => none

/-- `re.search` of the single-letter pattern: leftmost match. -/
def searchSingle : List Char → Option (Char × Nat × Char)
  | [] => none
  | c :: t =>
    match matchSingleAt (c :: t) with
    | some r => some r
    | none => searchSingle t

/-- Match of the bare pattern `([A-Z])(\d+)([A-Z\*X])` anchored at the head
of `l`. -/
def matchSimpleAt (l : List Char) : Option (Char × Nat × Char) :=
  match l with
  | c1 :: rest =>
    if isUpperA c1 then
      if rest.takeWhile isDigitA = [] then none
      else
        match rest.dropWhile isDigitA with
        | a :: _ =>
          if isUpperA a ∨ a = '*' ∨ a = 'X' then
            some (c1, digitsToNat (rest.takeWhile isDigitA), a)
          else none
        | [] => none
    else none
  | [] => none

/-- `re.search` of the bare pattern: leftmost match. -/
def searchSimple : List Char → Option (Char × Nat × Char)
  | [] => none
  | c :: t =>
    match matchSimpleAt (c :: t) with
    | some r => some r
    | none => searchSimple t

/-- `re.search(r'\(p\.([^)]+)\)', s)`: find the leftmost `(p.` followed by a
non-empty run of non-`)` characters and a closing `)`; return the run.  When
a start position fails the scan resumes one character further, as the regex
engine does. -/
def extractParen : List Char → Option (List Char)
  | [] => none
  | c :: t =>
    if c = '(' then
      match t with
      | 'p' :: '.' :: rest =>
        if rest.takeWhile (fun x => x ≠ ')') ≠ [] ∧
            rest.dropWhile (fun x => x ≠ ')') ≠ [] then
          some (rest.takeWhile (fun x => x ≠ ')'))
        else extractParen t
      | _ => extractParen t
    else extractParen t

/-- `re.match(r'c\.', s)`: the string starts with `c.`. -/
def startsWithCDot (l : List Char) : Bool :=
  match l with
  | 'c' :: '.' :: _ => true
  | _ => false

/-! ## Lookup tables of the extractor -/

/-- `valid_three_letter`: the 20 standard amino acids plus the stop code. -/
def valid_three_letter : List (List Char) :=
  [('A' :: 'l' :: 'a' ::[]), ('C' :: 'y' :: 's' ::[]), ('A' :: 's' :: 'p' ::[]), ('G' :: 'l' :: 'u' ::[]),
   ('P' :: 'h' :: 'e' ::[]), ('G' :: 'l' :: 'y' ::[]), ('H' :: 'i' :: 's' ::[]), ('I' :: 'l' :: 'e' ::[]),
   ('L' :: 'y' :: 's' ::[]), ('L' :: 'e' :: 'u' ::[]), ('M' :: 'e' :: 't' ::[]), ('A' :: 's' :: 'n' ::[]),
   ('P' :: 'r' :: 'o' ::[]), ('G' :: 'l' :: 'n' ::[]), ('A' :: 'r' :: 'g' ::[]), ('S' :: 'e' :: 'r' ::[]),
   ('T' :: 'h' :: 'r' ::[]), ('V' :: 'a' :: 'l' ::[]), ('T' :: 'r' :: 'p' ::[]), ('T' :: 'y' :: 'r' ::[]),
   ('T' :: 'e' :: 'r' ::[])]

/-- `single_to_three`: `dict.get(c, c)` on the 20-amino-acid-plus-stop table;
an unknown key is returned unchanged (as a one-character string). -/
def single_to_three (c : Char) : List Char :=
  match c with
  | 'A' => 'A' :: 'l' :: 'a' ::[]
  | 'C' => 'C' :: 'y' :: 's' ::[]
  | 'D' => 'A' :: 's' :: 'p' ::[]
  | 'E' => 'G' :: 'l' :: 'u' ::[]
  | 'F' => 'P' :: 'h' :: 'e' ::[]
  | 'G' => 'G' :: 'l' :: 'y' ::[]
  | 'H' => 'H' :: 'i' :: 's' ::[]
  | 'I' => 'I' :: 'l' :: 'e' ::[]
  | 'K' => 'L' :: 'y' :: 's' ::[]
  | 'L' => 'L' :: 'e' :: 'u' ::[]
  | 'M' => 'M' :: 'e' :: 't' ::[]
  | 'N' => 'A' :: 's' :: 'n' ::[]
  | 'P' => 'P' :: 'r' :: 'o' ::[]
  | 'Q' => 'G' :: 'l' :: 'n' ::[]
  | 'R' => 'A' :: 'r' :: 'g' ::[]
  | 'S' => 'S' :: 'e' :: 'r' ::[]
  | 'T' => 'T' :: 'h' :: 'r' ::[]
  | 'V' => 'V' :: 'a' :: 'l' ::[]
  | 'W' => 'T' :: 'r' :: 'p' ::[]
  | 'Y' => 'T' :: 'y' :: 'r' ::[]
  | '*' => 'T' :: 'e' :: 'r' ::[]
  | 'X' => 'T' :: 'e' :: 'r' ::[]
  | _ => [c]

/-- The nucleotide letters guarding the bare-pattern fallback. -/
def nucleotides : List Char := ['A', 'T', 'G', 'C']

/-- The stop code `Ter`. -/
def terCode : List Char := 'T' :: 'e' :: 'r' ::[]

/-! ## The two parse cascades -/

/-- The `X`-to-`Ter` fixup applied to a three-letter-pattern alternate in
`extract_snv_variants_with_logging`. -/
def fixupX (a : List Char) : List Char := if a = ['X'] then terCode else a

/-- The parse cascade of `extract_snv_variants` (lines 47–110): parenthesized
`(p.…)` interior first (three-letter then single-letter pattern, with no
fallback on the raw text if the interior fails), otherwise the three-letter
then the single-letter pattern on the raw text. -/
def parseV1 (source : List Char) : Option (List Char × Nat × List Char) :=
  match extractParen source with
  | some interior =>
    match searchThree false ('p' :: '.' :: interior) with
    | some (r, pos, a) => some (r, pos, a)
    | none =>
      match searchSingle ('p' :: '.' :: interior) with
      | some (r1, pos, a1) => some (single_to_three r1, pos, single_to_three a1)
      | none => none
  | none =>
    match searchThree false source with
    | some (r, pos, a) => some (r, pos, a)
    | none =>
      match searchSingle source with
      | some (r1, pos, a1) => some (single_to_three r1, pos, single_to_three a1)
      | none => none

/-- The parse cascade of `extract_snv_variants_with_logging` (lines 286–393):
parenthesized interior (three-letter with `X` alternative, then
single-letter), then the three-letter pattern on the raw text, then the
single-letter pattern on the raw text, then the bare pattern guarded by the
`c.`-prefix and nucleotide checks. -/
def parseV2 (source : List Char) : Option (List Char × Nat × List Char) :=
  match
    (match extractParen source with
     | some interior =>
       match searchThree true ('p' :: '.' :: interior) with
       | some (r, pos, a) => some (r, pos, fixupX a)
       | none =>
         match searchSingle ('p' :: '.' :: interior) with
         | some (r1, pos, a1) => some (single_to_three r1, pos, single_to_three a1)
         | none => none
     | none => none)
  with
  | some res => some res
  | none =>
    match searchThree true source with
    | some (r, pos, a) => some (r, pos, fixupX a)
    | none =>
      match searchSingle source with
      | some (r1, pos, a1) => some (single_to_three r1, pos, single_to_three a1)
      | none =>
        if startsWithCDot source then none
        else
          match searchSimple source with
          | some (r1, pos, a1) =>
            if r1 ∈ nucleotides ∧ a1 ∈ nucleotides then none
            else some (single_to_three r1, pos, single_to_three a1)
          | none => none

/-! ## The extractor pipeline -/

/-- One CSV row, restricted to the columns the extractor reads.  A missing
`verdict_classification` column is `none` (`row.get` default applies). -/
structure Row where
  variantType : List Char
  varsome : List Char
  variantReported : List Char
  verdictClassification : Option (List Char)

/-- One accepted variant record.  The two placeholder fields are always
`none`, as in the source (`distanceToDNA`/`closestDNAAtom` are populated by a
separate downstream component). -/
structure Variant where
  name : List Char
  residue : Nat
  type : List Char
  color : List Char
  distanceToDNA : Option ℚ
  closestDNAAtom : Option (List Char)
deriving DecidableEq

/-- Source-text selection (lines 271–281 / 37–42): `Varsome` when non-empty,
else `VariantReported`.  (The `'p.' in varisome_data` test of the logging
version selects `varisome_data` in both of its branches, so it reduces to
this.) -/
def sourceOf (r : Row) : List Char :=
  if r.varsome ≠ [] then r.varsome else r.variantReported

/-- `verdict_classification` with the `row.get` default. -/
def classificationOf (r : Row) : List Char :=
  r.verdictClassification.getD ("Uncertain Significance".data)

/-- The classification-to-color mapping (lines 131–145 / 415–429). -/
def classificationColor (c : List Char) : List Char :=
  if c = ("Pathogenic".data) then ("red".data)
  else if c = ("Likely Pathogenic".data) then ("orange".data)
  else if c = ("Benign".data) then ("green".data)
  else if c = ("Likely Benign".data) then ("#f5d547".data)
  else ("grey".data)

/-- The classification-to-type-label mapping (lines 131–145 / 415–429). -/
def classificationType (c : List Char) : List Char :=
  if c = ("Pathogenic".data) then ("Pathogenic".data)
  else if c = ("Likely Pathogenic".data) then ("Likely Pathogenic".data)
  else if c = ("Benign".data) then ("Benign".data)
  else if c = ("Likely Benign".data) then ("Likely Benign".data)
  else ("Uncertain Significance".data)

/-- The canonical identifier `f'p.{ref_aa}{position}{alt_aa}'`. -/
def mkName (ref : List Char) (pos : Nat) (alt : List Char) : List Char :=
  'p' :: '.' :: (ref ++ natToChars pos ++ alt)

/-- Mutable state of the `extract_snv_variants` loop: the accepted list and
the seen-set (modelled as a list with membership). -/
@[ext]
structure StateV1 where
  variants : List Variant
  seen : List (List Char)

/-- Mutable state of the `extract_snv_variants_with_logging` loop. -/
structure StateV2 where
  variants : List Variant
  seen : List (List Char)
  unparsed : List (List Char)

/-- One loop iteration of `extract_snv_variants` (lines 31–162). -/
def stepV1 (st : StateV1) (r : Row) : StateV1 :=
  if r.variantType ≠ ("SNV".data) then st
  else if sourceOf r = [] then st
  else
    match parseV1 (sourceOf r) with
    | none => st
    | some (ref, pos, alt) =>
      if ¬ (ref ∈ valid_three_letter ∧ alt ∈ valid_three_letter) then st
      else if mkName ref pos alt ∈ st.seen then st
      else if alt = terCode then { st with seen := mkName ref pos alt :: st.seen }
      else
        { variants := st.variants ++
            [⟨mkName ref pos alt, pos,
              classificationType (classificationOf r),
              classificationColor (classificationOf r), none, none⟩],
          seen := mkName ref pos alt :: st.seen }

/-- One loop iteration of `extract_snv_variants_with_logging`
(lines 266–449). -/
def stepV2 (st : StateV2) (r : Row) : StateV2 :=
  if r.variantType ≠ ("SNV".data) then st
  else if sourceOf r = [] then st
  else
    match parseV2 (sourceOf r) with
    | none => { st with unparsed := st.unparsed ++ [sourceOf r] }
    | some (ref, pos, alt) =>
      if ¬ (ref ∈ valid_three_letter ∧ alt ∈ valid_three_letter) then
        { st with unparsed := st.unparsed ++ [sourceOf r] }
      else if mkName ref pos alt ∈ st.seen then st
      else if alt = terCode then
        { variants := st.variants,
          seen := mkName ref pos alt :: st.seen,
          unparsed := st.unparsed ++
            [mkName ref pos alt ++ (" (termination variant)".data)] }
      else
        { variants := st.variants ++
            [⟨mkName ref pos alt, pos,
              classificationType (classificationOf r),
              classificationColor (classificationOf r), none, none⟩],
          seen := mkName ref pos alt :: st.seen,
          unparsed := st.unparsed }

/-- The row loop of `extract_snv_variants`. -/
def runV1 (rows : List Row) : StateV1 := rows.foldl stepV1 ⟨[], []⟩

/-- The row loop of `extract_snv_variants_with_logging`. -/
def runV2 (rows : List Row) : StateV2 := rows.foldl stepV2 ⟨[], [], []⟩

/-- The sort key comparison of `variants.sort(key=lambda x: x['residue'])`;
Python's sort is stable, which insertion sort realises. -/
def resLE (a b : Variant) : Prop := a.residue ≤ b.residue

instance : DecidableRel resLE := fun _ _ => inferInstanceAs (Decidable (_ ≤ _))

instance : IsTotal Variant resLE := ⟨fun a b => Nat.le_total a.residue b.residue⟩

instance : IsTrans Variant resLE := ⟨fun _ _ _ hab hbc => Nat.le_trans hab hbc⟩

/-- `extract_snv_variants(csv_file)`: the accepted list, sorted by residue. -/
def extract_snv_variants (rows : List Row) : List Variant :=
  List.insertionSort resLE (runV1 rows).variants

/-- `extract_snv_variants_with_logging(csv_file)`: accepted list sorted by
residue, plus the unparsed side-channel list. -/
def extract_snv_variants_with_logging (rows : List Row) :
    List Variant × List (List Char) :=
  (List.insertionSort resLE (runV2 rows).variants, (runV2 rows).unparsed)

/-! ## The unparsed-variant buckets of `generate_js_file` (lines 212–218) -/

/-- `needle` occurs as a contiguous substring of `hay`
(Python `'IVS' in v`). -/
def containsSeq (needle : List Char) : List Char → Bool
  | [] => needle.isEmpty
  | c :: t => (needle.isPrefixOf (c :: t)) || containsSeq needle t

/-- `v.startswith('c.')`. -/
def startsWithCDotS (v : List Char) : Bool := startsWithCDot v

/-- `'IVS' in v.upper()`. -/
def containsIVS (v : List Char) : Bool :=
  containsSeq ("IVS".data) (v.map Char.toUpper)

/-- `cdna_variants = [v for v in unparsed_variants if v.startswith('c.')]`. -/
def cdna_variants (unparsed : List (List Char)) : List (List Char) :=
  unparsed.filter startsWithCDotS

/-- `ivs_variants = [v for v in unparsed_variants if 'IVS' in v.upper()]`. -/
def ivs_variants (unparsed : List (List Char)) : List (List Char) :=
  unparsed.filter containsIVS

/-- `other_variants`: neither a `c.` prefix nor an `IVS` marker. -/
def other_variants (unparsed : List (List Char)) : List (List Char) :=
  unparsed.filter (fun v => !startsWithCDotS v && !containsIVS v)

/-! ## The statistical test selector of `analyze-variant-distances.py`

The scipy checks (`shapiro`, `levene`, `mannwhitneyu`) are external
collaborators; they enter the embedding as oracle parameters returning the
p-value (resp. the U statistic and p-value).  Group measurement values are
rationals. -/

/-- The significance threshold `0.05` of the analyzer, written as an
explicit normal-form rational so that concrete comparisons are kernel
computable; `significanceLevel_eq` identifies it with the literal `0.05`. -/
def significanceLevel : ℚ := ⟨1, 20, by decide, by decide⟩

theorem significanceLevel_eq : significanceLevel = 0.05 := by
  rw [show significanceLevel = (⟨1, 20, by decide, by decide⟩ : ℚ) from rfl,
    Rat.mk'_eq_divInt]
  norm_num [Rat.divInt_eq_div]

/-- One pathogenicity group: its label and measurement values. -/
structure GroupData where
  name : List Char
  data : List ℚ
deriving DecidableEq

/-- Result structure of `test_assumptions` (lines 153–213). -/
structure Assumptions where
  normality : List (List Char × ℚ × Bool)
  allGroupsNormal : Bool
  levene : Option (ℚ × Bool)
  recommendedTest : Option (List Char)

/-- `test_assumptions`: per-group Shapiro–Wilk normality for groups with at
least 3 observations, the aggregate `all_groups_normal` flag, Levene variance
homogeneity for more than one group, and the recommended test.  `sh` and `lv`
are the p-value oracles for `scipy.stats.shapiro` and `scipy.stats.levene`. -/
def test_assumptions (sh : List ℚ → ℚ) (lv : List (List ℚ) → ℚ)
    (groups : List GroupData) : Assumptions :=
  let normality := (groups.filter (fun g => 3 ≤ g.data.length)).map
    (fun g => (g.name, sh g.data, decide (significanceLevel < sh g.data)))
  let allNormal := groups.foldl
    (fun acc g =>
      if 3 ≤ g.data.length then
        if sh g.data ≤ significanceLevel then false else acc
      else acc) true
  let leveneRes : Option (ℚ × Bool) :=
    if 1 < groups.length then
      some (lv (groups.map GroupData.data), decide (significanceLevel < lv (groups.map GroupData.data)))
    else none
  let equalVariance : Bool :=
    match leveneRes with
    | some (_, ev) => ev
    | none => false
  let recommended : Option (List Char) :=
    if groups.length = 2 then
      some (if allNormal && equalVariance then ("Student's t-test".data)
        else if allNormal then ("Welch's t-test".data)
        else ("Mann-Whitney U test".data))
    else if 2 < groups.length then
      some (if allNormal && equalVariance then ("One-way ANOVA".data)
        else ("Kruskal-Wallis test".data))
    else none
  ⟨normality, allNormal, leveneRes, recommended⟩

/-- Rank-biserial correlation `r = 1 - (2 * u_stat) / (n1 * n2)`
(line 257). -/
def rank_biserial (u : ℚ) (n1 n2 : Nat) : ℚ := 1 - (2 * u) / ((n1 : ℚ) * (n2 : ℚ))

/-- Common-language effect size `cles = u_stat / (n1 * n2)` (line 258). -/
def cles_of (u : ℚ) (n1 n2 : Nat) : ℚ := u / ((n1 : ℚ) * (n2 : ℚ))

/-- The 2-group Mann-Whitney record built by `perform_statistical_tests`
(lines 246–274), without the Cohen's d reference value (whose pooled standard
deviation needs a real square root and is not used by any claim). -/
structure MannWhitneyResult where
  uStatistic : ℚ
  pValue : ℚ
  effectSizeR : ℚ
  cles : ℚ
  significant : Bool
deriving DecidableEq

/-- The 2-group branch of `perform_statistical_tests`: call the library test
and derive the effect sizes.  `mwu` is the `scipy.stats.mannwhitneyu` oracle;
a library exception is an `Except.error`, and the source has no handler, so
an error propagates unchanged. -/
def perform_mann_whitney
    (mwu : List ℚ → List ℚ → Except (List Char) (ℚ × ℚ))
    (g1 g2 : List ℚ) : Except (List Char) MannWhitneyResult :=
  match mwu g1 g2 with
  | Except.error e => Except.error e
  | Except.ok (u, p) =>
    Except.ok ⟨u, p, rank_biserial u g1.length g2.length,
      cles_of u g1.length g2.length, decide (p < significanceLevel)⟩

/-- The hypothesis verdict of `print_statistical_report` (lines 788–793):
strict comparison of the two group medians as reported by the
descriptive-statistics provider. -/
def hypothesis_direction (plpMedian vusMedian : ℚ) : List Char :=
  if plpMedian < vusMedian then ("SUPPORTED".data) else ("NOT SUPPORTED".data)

/-! ## Reduction and search lemmas for the matchers -/

/-- A three-letter amino-acid code as matched by `[A-Z][a-z]{2}`. -/
def isThreeCode (l : List Char) : Bool :=
  match l with
  | [c1, c2, c3] => isUpperA c1 && isLowerA c2 && isLowerA c3
  | _ => false

theorem threeCode_shape {x : List Char} (h : isThreeCode x = true) :
    ∃ c1 c2 c3, x = [c1, c2, c3] ∧ isUpperA c1 = true ∧ isLowerA c2 = true ∧
      isLowerA c3 = true := by
  match x, h with
  | [c1, c2, c3], h =>
    have h2 : (isUpperA c1 = true ∧ isLowerA c2 = true) ∧ isLowerA c3 = true := by
      simpa [isThreeCode] using h
    exact ⟨c1, c2, c3, rfl, h2.1.1, h2.1.2, h2.2⟩

theorem matchThreeAt_cons5 (allowX : Bool) (p d c1 c2 c3 : Char) (rest : List Char) :
    matchThreeAt allowX (p :: d :: c1 :: c2 :: c3 :: rest) =
      (if p = 'p' ∧ d = '.' ∧ isUpperA c1 ∧ isLowerA c2 ∧ isLowerA c3 then
        (if rest.takeWhile isDigitA = [] then none
         else
           match matchAltThree allowX (rest.dropWhile isDigitA) with
           | some a => some ([c1, c2, c3], digitsToNat (rest.takeWhile isDigitA), a)
           | none => none)
      else none) := rfl

theorem matchAltThree_cons3 (allowX : Bool) (a1 a2 a3 : Char) (rest : List Char) :
    matchAltThree allowX (a1 :: a2 :: a3 :: rest) =
      (if isUpperA a1 ∧ isLowerA a2 ∧ isLowerA a3 then some [a1, a2, a3]
       else if a1 = 'T' ∧ a2 = 'e' ∧ a3 = 'r' then some ['T', 'e', 'r']
       else if a1 = '*' then some ['*']
       else if allowX ∧ a1 = 'X' then some ['X']
       else none) := rfl

theorem matchSingleAt_cons3 (p d c1 : Char) (rest : List Char) :
    matchSingleAt (p :: d :: c1 :: rest) =
      (if p = 'p' ∧ d = '.' ∧ isUpperA c1 then
        (if rest.takeWhile isDigitA = [] then none
         else
           match rest.dropWhile isDigitA with
           | a :: _ =>
             if isUpperA a ∨ a = '*' ∨ a = 'X' then
               some (c1, digitsToNat (rest.takeWhile isDigitA), a)
             else none
           | [] => none)
      else none) := rfl

theorem matchThreeAt_none_of_head_ne_p (allowX : Bool) {c : Char} (t : List Char)
    (hc : c ≠ 'p') : matchThreeAt allowX (c :: t) = none := by
  match t with
  | [] => rfl
  | [_] => rfl
  | [_, _] => rfl
  | [_, _, _] => rfl
  | d :: c1 :: c2 :: c3 :: rest =>
    rw [matchThreeAt_cons5, if_neg]
    intro hcon
    exact hc hcon.1

theorem searchThree_of_matchThreeAt {allowX : Bool} {c : Char} {t : List Char}
    {r : List Char × Nat × List Char} (h : matchThreeAt allowX (c :: t) = some r) :
    searchThree allowX (c :: t) = some r := by
  show (match matchThreeAt allowX (c :: t) with
    | some r => some r
    | none => searchThree allowX t) = some r
  rw [h]

theorem searchThree_cons_none {allowX : Bool} {c : Char} {t : List Char}
    (h : matchThreeAt allowX (c :: t) = none) :
    searchThree allowX (c :: t) = searchThree allowX t := by
  show (match matchThreeAt allowX (c :: t) with
    | some r => some r
    | none => searchThree allowX t) = searchThree allowX t
  rw [h]

theorem searchThree_none_of_no_p {allowX : Bool} :
    ∀ l : List Char, (∀ c ∈ l, c ≠ 'p') → searchThree allowX l = none := by
  intro l
  induction l with
  | nil => intro _; rfl
  | cons c t ih =>
    intro h
    have hm := matchThreeAt_none_of_head_ne_p allowX t (h c (by simp))
    rw [searchThree_cons_none hm]
    exact ih (fun x hx => h x (by simp [hx]))

theorem searchSingle_of_matchSingleAt {c : Char} {t : List Char}
    {r : Char × Nat × Char} (h : matchSingleAt (c :: t) = some r) :
    searchSingle (c :: t) = some r := by
  show (match matchSingleAt (c :: t) with
    | some r => some r
    | none => searchSingle t) = some r
  rw [h]

theorem extractParen_cons (c : Char) (t : List Char) :
    extractParen (c :: t) =
      (if c = '(' then
        (match t with
         | 'p' :: '.' :: rest =>
           if rest.takeWhile (fun x => x ≠ ')') ≠ [] ∧
               rest.dropWhile (fun x => x ≠ ')') ≠ [] then
             some (rest.takeWhile (fun x => x ≠ ')'))
           else extractParen t
         | _ => extractParen t)
      else extractParen t) := rfl

theorem extractParen_eq_none :
    ∀ l : List Char, (∀ c ∈ l, c ≠ '(') → extractParen l = none := by
  intro l
  induction l with
  | nil => intro _; rfl
  | cons c t ih =>
    intro h
    rw [extractParen_cons, if_neg (h c (by simp))]
    exact ih (fun x hx => h x (by simp [hx]))

/-! ## Canonical-string parsing (claim C3 infrastructure) -/

theorem matchThreeAt_canonical (allowX : Bool) {c1 c2 c3 : Char} {ds alt : List Char}
    (h1 : isUpperA c1 = true) (h2 : isLowerA c2 = true) (h3 : isLowerA c3 = true)
    (hds : ds ≠ []) (hdig : ∀ c ∈ ds, isDigitA c = true)
    (halt : isThreeCode alt = true) :
    matchThreeAt allowX ('p' :: '.' :: c1 :: c2 :: c3 :: (ds ++ alt)) =
      some ([c1, c2, c3], digitsToNat ds, alt) := by
  obtain ⟨a1, a2, a3, rfl, ha1, ha2, ha3⟩ := threeCode_shape halt
  have hhead : ∀ c, ([a1, a2, a3] : List Char).head? = some c → isDigitA c = false := by
    intro c hc
    simp at hc
    subst hc
    exact isUpperA_not_digit ha1
  have htake : (ds ++ [a1, a2, a3]).takeWhile isDigitA = ds :=
    takeWhile_append_of_head_neg ds [a1, a2, a3] hdig hhead
  have hdrop : (ds ++ [a1, a2, a3]).dropWhile isDigitA = [a1, a2, a3] :=
    dropWhile_append_of_head_neg ds [a1, a2, a3] hdig hhead
  rw [matchThreeAt_cons5, if_pos ⟨rfl, rfl, h1, h2, h3⟩, htake, hdrop]
  rw [if_neg hds, matchAltThree_cons3, if_pos ⟨ha1, ha2, ha3⟩]

theorem isThreeCode_ne_X {alt : List Char} (h : isThreeCode alt = true) :
    alt ≠ ['X'] := by
  obtain ⟨a1, a2, a3, rfl, -, -, -⟩ := threeCode_shape h
  simp

theorem threeCode_no_lparen {x : List Char} (h : isThreeCode x = true) :
    ∀ c ∈ x, c ≠ '(' := by
  obtain ⟨c1, c2, c3, rfl, h1, h2, h3⟩ := threeCode_shape h
  intro c hc
  rcases (by simpa using hc : c = c1 ∨ c = c2 ∨ c = c3) with rfl | rfl | rfl
  · exact isUpperA_ne_lparen h1
  · exact isLowerA_ne_lparen h2
  · exact isLowerA_ne_lparen h3

theorem threeCode_no_p_upper {x : List Char} (h : isThreeCode x = true) :
    ∀ c ∈ x, isUpperA c = true ∨ isLowerA c = true := by
  obtain ⟨c1, c2, c3, rfl, h1, h2, h3⟩ := threeCode_shape h
  intro c hc
  rcases (by simpa using hc : c = c1 ∨ c = c2 ∨ c = c3) with rfl | rfl | rfl
  · exact Or.inl h1
  · exact Or.inr h2
  · exact Or.inr h3

/-- Parsing an exact three-letter canonical string with the logging cascade:
stage 1 finds no parentheses, stage 2 matches at position 0. -/
theorem parseV2_threeLetter (ref alt ds : List Char)
    (href : isThreeCode ref = true) (halt : isThreeCode alt = true)
    (hds : ds ≠ []) (hdig : ∀ c ∈ ds, isDigitA c = true) :
    parseV2 ('p' :: '.' :: (ref ++ ds ++ alt)) = some (ref, digitsToNat ds, alt) := by
  obtain ⟨c1, c2, c3, rfl, h1, h2, h3⟩ := threeCode_shape href
  have hparen : extractParen ('p' :: '.' :: ([c1, c2, c3] ++ ds ++ alt)) = none := by
    apply extractParen_eq_none
    intro c hc
    simp at hc
    rcases hc with rfl | rfl | rfl | rfl | rfl | hc | hc
    · decide
    · decide
    · exact isUpperA_ne_lparen h1
    · exact isLowerA_ne_lparen h2
    · exact isLowerA_ne_lparen h3
    · exact isDigitA_ne_lparen (hdig c hc)
    · exact threeCode_no_lparen halt c hc
  have hmatch : matchThreeAt true ('p' :: '.' :: c1 :: c2 :: c3 :: (ds ++ alt)) =
      some ([c1, c2, c3], digitsToNat ds, alt) :=
    matchThreeAt_canonical true h1 h2 h3 hds hdig halt
  have hsearch : searchThree true ('p' :: '.' :: ([c1, c2, c3] ++ ds ++ alt)) =
      some ([c1, c2, c3], digitsToNat ds, alt) := by
    have : ('p' :: '.' :: ([c1, c2, c3] ++ ds ++ alt)) =
        ('p' :: '.' :: c1 :: c2 :: c3 :: (ds ++ alt)) := by simp
    rw [this]
    exact searchThree_of_matchThreeAt hmatch
  have hfix : fixupX alt = alt := by
    unfold fixupX
    rw [if_neg (isThreeCode_ne_X halt)]
  unfold parseV2
  rw [hparen, hsearch]
  simp [hfix]

/-- Parsing an exact single-letter canonical string with the logging cascade:
stage 1 finds no parentheses, stage 2 fails everywhere (the character after
the reference letter is a digit, and no later position starts with `p`),
stage 3 matches at position 0. -/
theorem parseV2_singleLetter {r1 a1 : Char} {ds : List Char}
    (hr : isUpperA r1 = true) (ha : isUpperA a1 = true ∨ a1 = '*' ∨ a1 = 'X')
    (hds : ds ≠ []) (hdig : ∀ c ∈ ds, isDigitA c = true) :
    parseV2 ('p' :: '.' :: r1 :: (ds ++ [a1])) =
      some (single_to_three r1, digitsToNat ds, single_to_three a1) := by
  have ha1np : a1 ≠ 'p' := by
    rcases ha with h | rfl | rfl
    · exact isUpperA_ne_p h
    · decide
    · decide
  have ha1nlp : a1 ≠ '(' := by
    rcases ha with h | rfl | rfl
    · exact isUpperA_ne_lparen h
    · decide
    · decide
  have ha1nd : isDigitA a1 = false := by
    rcases ha with h | rfl | rfl
    · exact isUpperA_not_digit h
    · decide
    · decide
  have hparen : extractParen ('p' :: '.' :: r1 :: (ds ++ [a1])) = none := by
    apply extractParen_eq_none
    intro c hc
    simp at hc
    rcases hc with rfl | rfl | rfl | hc
    · decide
    · decide
    · exact isUpperA_ne_lparen hr
    · rcases hc with hc | rfl
      · exact isDigitA_ne_lparen (hdig c hc)
      · exact ha1nlp
  have hsthree : searchThree true ('p' :: '.' :: r1 :: (ds ++ [a1])) = none := by
    obtain ⟨d, ds', rfl⟩ : ∃ d ds', ds = d :: ds' := by
      cases ds with
      | nil => exact absurd rfl hds
      | cons d ds' => exact ⟨d, ds', rfl⟩
    have hdnl : isLowerA d = false := isDigitA_not_lower (hdig d (by simp))
    have hm : matchThreeAt true ('p' :: '.' :: r1 :: ((d :: ds') ++ [a1])) = none := by
      cases ds' with
      | nil =>
        rw [show ('p' :: '.' :: r1 :: (([d] : List Char) ++ [a1])) =
          ('p' :: '.' :: r1 :: d :: a1 :: []) by simp, matchThreeAt_cons5, if_neg]
        intro hcon
        rw [hcon.2.2.2.1] at hdnl
        exact absurd hdnl (by decide)
      | cons d2 ds'' =>
        rw [show ('p' :: '.' :: r1 :: ((d :: d2 :: ds'') ++ [a1])) =
          ('p' :: '.' :: r1 :: d :: d2 :: (ds'' ++ [a1])) by simp, matchThreeAt_cons5, if_neg]
        intro hcon
        rw [hcon.2.2.2.1] at hdnl
        exact absurd hdnl (by decide)
    rw [searchThree_cons_none hm]
    apply searchThree_none_of_no_p
    intro c hc
    simp at hc
    rcases hc with rfl | rfl | rfl | hc | rfl
    · decide
    · exact isUpperA_ne_p hr
    · exact isDigitA_ne_p (hdig c (by simp))
    · exact isDigitA_ne_p (hdig c (by simp [hc]))
    · exact ha1np
  have hsingle : searchSingle ('p' :: '.' :: r1 :: (ds ++ [a1])) =
      some (r1, digitsToNat ds, a1) := by
    apply searchSingle_of_matchSingleAt
    have hhead : ∀ c, ([a1] : List Char).head? = some c → isDigitA c = false := by
      intro c hc
      simp at hc
      exact hc ▸ ha1nd
    have htake : (ds ++ [a1]).takeWhile isDigitA = ds :=
      takeWhile_append_of_head_neg ds [a1] hdig hhead
    have hdrop : (ds ++ [a1]).dropWhile isDigitA = [a1] :=
      dropWhile_append_of_head_neg ds [a1] hdig hhead
    rw [matchSingleAt_cons3, if_pos ⟨rfl, rfl, hr⟩, htake, hdrop]
    rw [if_neg hds]
    simp [ha]
  unfold parseV2
  rw [hparen, hsthree, hsingle]

/-! ## Claim C3 -/

/-- The 20 single-letter amino-acid codes of the `single_to_three` table
(the letter keys; `*` and `X` are the stop symbols). -/
def singleLetterCodes : List Char :=
  ['A', 'C', 'D', 'E', 'F', 'G', 'H', 'I', 'K', 'L',
   'M', 'N', 'P', 'Q', 'R', 'S', 'T', 'V', 'W', 'Y']

theorem valid_threeCode : ∀ x ∈ valid_three_letter, isThreeCode x = true := by decide

theorem singleCodes_upper : ∀ c ∈ singleLetterCodes, isUpperA c = true := by decide

theorem singleCodes_threeCode :
    ∀ c ∈ singleLetterCodes, isThreeCode (single_to_three c) = true := by decide

/-- C3 (amended): every annotation string that is exactly a documented
three-letter substitution whose reference and alternate are among the 21
three-letter codes — the `*` alternate of the three-letter pattern is
excluded, since the cascade leaves it unconverted and validation then
rejects the row (see the counterexample) — or exactly a documented
single-letter substitution (including the `*` and `X` alternates, which the
lookup table does convert) produces the correct canonical
`p.<Ref3><Pos><Alt3>` parse, parsing the canonical identifier built from it
reproduces the same parse (round-trip stability), and the concrete scenario
`"HNF1B(NM_000458.4):c.544C>T (p.Arg182Trp)"` with classification
`"Pathogenic"` yields identifier `p.Arg182Trp`, residue 182, color `red`,
type `Pathogenic`. -/
theorem parser_returns_canonical_and_roundtrips :
    (∀ ref alt ds, ref ∈ valid_three_letter → alt ∈ valid_three_letter →
      ds ≠ [] → (∀ c ∈ ds, isDigitA c = true) →
      parseV2 ('p' :: '.' :: (ref ++ ds ++ alt)) = some (ref, digitsToNat ds, alt) ∧
      parseV2 (mkName ref (digitsToNat ds) alt) = some (ref, digitsToNat ds, alt)) ∧
    (∀ r1 a1 ds, r1 ∈ singleLetterCodes →
      (a1 ∈ singleLetterCodes ∨ a1 = '*' ∨ a1 = 'X') →
      ds ≠ [] → (∀ c ∈ ds, isDigitA c = true) →
      parseV2 ('p' :: '.' :: r1 :: (ds ++ [a1])) =
        some (single_to_three r1, digitsToNat ds, single_to_three a1) ∧
      parseV2 (mkName (single_to_three r1) (digitsToNat ds) (single_to_three a1)) =
        some (single_to_three r1, digitsToNat ds, single_to_three a1)) ∧
    extract_snv_variants_with_logging
        [⟨("SNV".data), ("HNF1B(NM_000458.4):c.544C>T (p.Arg182Trp)".data), [],
          some ("Pathogenic".data)⟩] =
      ([⟨("p.Arg182Trp".data), 182, ("Pathogenic".data), ("red".data), none, none⟩],
       []) := by
  refine ⟨?_, ?_, by decide⟩
  · intro ref alt ds href halt hds hdig
    have hrc := valid_threeCode ref href
    have hac := valid_threeCode alt halt
    refine ⟨parseV2_threeLetter ref alt ds hrc hac hds hdig, ?_⟩
    have h := parseV2_threeLetter ref alt (natToChars (digitsToNat ds)) hrc hac
      (natToChars_ne_nil _) (natToChars_digits _)
    rw [digitsToNat_natToChars] at h
    exact h
  · intro r1 a1 ds hr1 ha1 hds hdig
    have hru := singleCodes_upper r1 hr1
    have hau : isUpperA a1 = true ∨ a1 = '*' ∨ a1 = 'X' := by
      rcases ha1 with h | h | h
      · exact Or.inl (singleCodes_upper a1 h)
      · exact Or.inr (Or.inl h)
      · exact Or.inr (Or.inr h)
    have hrc : isThreeCode (single_to_three r1) = true := singleCodes_threeCode r1 hr1
    have hac : isThreeCode (single_to_three a1) = true := by
      rcases ha1 with h | rfl | rfl
      · exact singleCodes_threeCode a1 h
      · decide
      · decide
    refine ⟨parseV2_singleLetter hru hau hds hdig, ?_⟩
    have h := parseV2_threeLetter (single_to_three r1) (single_to_three a1)
      (natToChars (digitsToNat ds)) hrc hac
      (natToChars_ne_nil _) (natToChars_digits _)
    rw [digitsToNat_natToChars] at h
    exact h

/-- Witness for C3 at `"p.Arg182Trp"` (three-letter) and `"p.R137W"`
(single-letter, round-tripping through `p.Arg137Trp`). -/
theorem parser_returns_canonical_and_roundtrips_witness :
    parseV2 ('p' :: '.' :: (("Arg".data) ++ ('1' :: '8' :: '2' :: []) ++ ("Trp".data))) =
      some (("Arg".data), 182, ("Trp".data)) ∧
    parseV2 ('p' :: '.' :: 'R' :: (('1' :: '3' :: '7' :: []) ++ ['W'])) =
      some (("Arg".data), 137, ("Trp".data)) ∧
    parseV2 (mkName ("Arg".data) 137 ("Trp".data)) =
      some (("Arg".data), 137, ("Trp".data)) := by
  have h3 := (parser_returns_canonical_and_roundtrips.1 ("Arg".data) ("Trp".data)
    ('1' :: '8' :: '2' :: []) (by decide) (by decide) (by decide) (by decide)).1
  have h1 := parser_returns_canonical_and_roundtrips.2.1 'R' 'W'
    ('1' :: '3' :: '7' :: []) (by decide) (by decide) (by decide) (by decide)
  rw [show digitsToNat ('1' :: '8' :: '2' :: []) = 182 from by decide] at h3
  rw [show digitsToNat ('1' :: '3' :: '7' :: []) = 137 from by decide,
    show single_to_three 'R' = ("Arg".data) from by decide,
    show single_to_three 'W' = ("Trp".data) from by decide] at h1
  exact ⟨h3, h1.1, h1.2⟩

/-- C3 counterexample: `"p.Arg137*"` matches the documented three-letter
pattern with the `*` alternate, but the cascade returns the alternate `'*'`
unconverted (the `X`-to-`Ter` fixup does not apply to `*`), `'*'` is not a
valid three-letter code, and the extractor therefore rejects the row as
unparsed — no canonical `p.<Ref3><Pos><Alt3>` identifier is produced for
this in-scope string, refuting the unrestricted claim. -/
theorem parser_star_alternate_counterexample :
    parseV2 ("p.Arg137*".data) = some (("Arg".data), 137, ['*']) ∧
    (['*'] : List Char) ∉ valid_three_letter ∧
    extract_snv_variants_with_logging
        [⟨("SNV".data), ("p.Arg137*".data), [], none⟩] =
      ([], [("p.Arg137*".data)]) := by decide

/-! ## Invariants of the logging extractor loop -/

theorem suffix_eq_of_length {l1 l2 x : List Char} (h1 : l1 <:+ x) (h2 : l2 <:+ x)
    (hlen : l1.length = l2.length) : l1 = l2 := by
  obtain ⟨s1, rfl⟩ := h1
  obtain ⟨s2, h2⟩ := h2
  have hs : s2.length = s1.length := by
    have hl := congrArg List.length h2
    simp at hl
    omega
  exact ((List.append_inj h2 hs).2).symm

theorem valid_length : ∀ x ∈ valid_three_letter, x.length = 3 := by decide

theorem mkName_alt_suffix (ref : List Char) (pos : Nat) (alt : List Char) :
    alt <:+ mkName ref pos alt :=
  ⟨'p' :: '.' :: (ref ++ natToChars pos), by simp [mkName]⟩

theorem mkName_no_ter_suffix {ref alt : List Char} {pos : Nat}
    (halt : alt ∈ valid_three_letter) (hne : alt ≠ terCode) :
    ¬ (terCode <:+ mkName ref pos alt) := by
  intro h
  have hsuf := mkName_alt_suffix ref pos alt
  have hlen : terCode.length = alt.length := by
    rw [valid_length alt halt]
    rfl
  exact hne ((suffix_eq_of_length h hsuf hlen).symm)

/-- The loop invariant of `extract_snv_variants_with_logging`: every accepted
variant's name is in the seen-set, accepted names are pairwise distinct, and
no accepted name ends with the stop code. -/
def InvV2 (st : StateV2) : Prop :=
  (∀ v ∈ st.variants, v.name ∈ st.seen) ∧
  (st.variants.map Variant.name).Nodup ∧
  (∀ v ∈ st.variants, ¬ (terCode <:+ v.name))

theorem stepV2_inv {st : StateV2} (r : Row) (h : InvV2 st) : InvV2 (stepV2 st r) := by
  obtain ⟨hsub, hnd, hter⟩ := h
  unfold stepV2
  by_cases h1 : r.variantType ≠ ("SNV".data)
  · simp only [if_pos h1]; exact ⟨hsub, hnd, hter⟩
  simp only [if_neg h1]
  by_cases h2 : sourceOf r = []
  · simp only [if_pos h2]; exact ⟨hsub, hnd, hter⟩
  simp only [if_neg h2]
  rcases hp : parseV2 (sourceOf r) with - | ⟨ref, pos, alt⟩
  · exact ⟨hsub, hnd, hter⟩
  by_cases h3 : ¬ (ref ∈ valid_three_letter ∧ alt ∈ valid_three_letter)
  · simp only [if_pos h3]; exact ⟨hsub, hnd, hter⟩
  simp only [if_neg h3]
  push_neg at h3
  by_cases h4 : mkName ref pos alt ∈ st.seen
  · simp only [if_pos h4]; exact ⟨hsub, hnd, hter⟩
  simp only [if_neg h4]
  by_cases h5 : alt = terCode
  · simp only [if_pos h5]
    exact ⟨fun v hv => List.mem_cons_of_mem _ (hsub v hv), hnd, hter⟩
  · simp only [if_neg h5]
    refine ⟨?_, ?_, ?_⟩
    · intro v hv
      rcases List.mem_append.mp hv with hv | hv
      · exact List.mem_cons_of_mem _ (hsub v hv)
      · simp at hv
        subst hv
        exact List.mem_cons_self _ _
    · rw [List.map_append]
      rw [List.nodup_append]
      refine ⟨hnd, List.nodup_singleton _, ?_⟩
      intro n hn hn'
      simp at hn'
      rcases List.mem_map.mp hn with ⟨v, hv, hname⟩
      apply h4
      rw [← hn', ← hname]
      exact hsub v hv
    · intro v hv
      rcases List.mem_append.mp hv with hv | hv
      · exact hter v hv
      · simp at hv
        subst hv
        exact mkName_no_ter_suffix h3.2 h5

theorem foldl_stepV2_inv : ∀ (rows : List Row) (st : StateV2), InvV2 st →
    InvV2 (rows.foldl stepV2 st) := by
  intro rows
  induction rows with
  | nil => intro st h; exact h
  | cons r rows ih => intro st h; exact ih _ (stepV2_inv r h)

theorem runV2_inv (rows : List Row) : InvV2 (runV2 rows) :=
  foldl_stepV2_inv rows ⟨[], [], []⟩ ⟨by simp, by simp, by simp⟩

/-! ## Stability of the residue sort -/

theorem filter_orderedInsert_res (v : Variant) (k : Nat) :
    ∀ l : List Variant,
      (List.orderedInsert resLE v l).filter (fun w => decide (w.residue = k)) =
        if v.residue = k then
          v :: l.filter (fun w => decide (w.residue = k))
        else l.filter (fun w => decide (w.residue = k)) := by
  intro l
  induction l with
  | nil =>
    simp only [List.orderedInsert]
    by_cases hv : v.residue = k <;> simp [List.filter, hv]
  | cons b l ih =>
    simp only [List.orderedInsert]
    by_cases hr : resLE v b
    · rw [if_pos hr]
      by_cases hv : v.residue = k <;> simp [List.filter, hv]
    · rw [if_neg hr]
      have hblt : b.residue < v.residue := by
        unfold resLE at hr
        omega
      by_cases hv : v.residue = k
      · have hb : ¬ (b.residue = k) := by omega
        rw [if_pos hv, List.filter_cons, List.filter_cons]
        simp only [hb, decide_eq_true_eq, if_false, decide_eq_false_iff_not.mpr hb]
        rw [ih, if_pos hv]
      · rw [if_neg hv, List.filter_cons, List.filter_cons, ih, if_neg hv]

theorem filter_insertionSort_res (k : Nat) :
    ∀ l : List Variant,
      (List.insertionSort resLE l).filter (fun w => decide (w.residue = k)) =
        l.filter (fun w => decide (w.residue = k)) := by
  intro l
  induction l with
  | nil => rfl
  | cons v l ih =>
    simp only [List.insertionSort]
    rw [filter_orderedInsert_res, ih]
    by_cases hv : v.residue = k <;> simp [List.filter_cons, hv]

/-! ## Claim C2 -/

/-- C2 (amended): a parsed variant whose alternate resolves to `Ter` never
appears in the accepted output; when its canonical name is not yet in the
seen-set the row is appended to the unparsed list with the
`" (termination variant)"` annotation, but a later row with the same
canonical name is dropped by the seen-set check without being appended; and
the concrete scenario `"p.R137*"` resolves to `p.Arg137Ter`, is excluded
from the primary output and logged as a termination variant. -/
theorem termination_variants_excluded :
    (∀ rows v, v ∈ (extract_snv_variants_with_logging rows).1 →
      ¬ (terCode <:+ v.name)) ∧
    (∀ (st : StateV2) (r : Row) (ref : List Char) (pos : Nat),
      r.variantType = ("SNV".data) → sourceOf r ≠ [] →
      parseV2 (sourceOf r) = some (ref, pos, terCode) → ref ∈ valid_three_letter →
      (stepV2 st r).variants = st.variants ∧
      (mkName ref pos terCode ∉ st.seen →
        (stepV2 st r).unparsed =
          st.unparsed ++ [mkName ref pos terCode ++ (" (termination variant)".data)]) ∧
      (mkName ref pos terCode ∈ st.seen → (stepV2 st r).unparsed = st.unparsed)) ∧
    extract_snv_variants_with_logging [⟨("SNV".data), ("p.R137*".data), [], none⟩] =
      ([], [("p.Arg137Ter (termination variant)".data)]) := by
  refine ⟨?_, ?_, by decide⟩
  · intro rows v hv
    have hperm := List.perm_insertionSort resLE (runV2 rows).variants
    exact (runV2_inv rows).2.2 v (hperm.mem_iff.mp hv)
  · intro st r ref pos hSNV hsrc hp href
    unfold stepV2
    have h1 : ¬ (r.variantType ≠ ("SNV".data)) := by simp [hSNV]
    simp only [if_neg h1, if_neg hsrc]
    rw [hp]
    have h3 : ¬ ¬ (ref ∈ valid_three_letter ∧ terCode ∈ valid_three_letter) :=
      not_not_intro ⟨href, by decide⟩
    simp only [if_neg h3]
    by_cases h4 : mkName ref pos terCode ∈ st.seen
    · simp only [if_pos h4]
      exact ⟨by trivial, fun hn => absurd h4 hn, fun _ => by trivial⟩
    · simp only [if_neg h4, if_pos rfl]
      exact ⟨by trivial, fun _ => by trivial, fun hn => absurd hn h4⟩

/-- C2 counterexample: two rows both parsing to the termination variant
`p.Arg137Ter`; the second is dropped by the seen-set before the
termination-logging branch, so the unparsed list gains only one entry, not
one per row as the claim requires. -/
theorem termination_always_logged_counterexample :
    parseV2 ("p.R137*".data) = some (("Arg".data), 137, terCode) ∧
    (extract_snv_variants_with_logging
        [⟨("SNV".data), ("p.R137*".data), [], none⟩,
         ⟨("SNV".data), ("p.R137*".data), [], none⟩]).2 =
      [("p.Arg137Ter (termination variant)".data)] ∧
    (extract_snv_variants_with_logging
        [⟨("SNV".data), ("p.R137*".data), [], none⟩,
         ⟨("SNV".data), ("p.R137*".data), [], none⟩]).1 = [] := by decide

/-- Witness for C2 at the `"p.R137*"` row against the empty state. -/
theorem termination_variants_excluded_witness :
    (stepV2 ⟨[], [], []⟩ ⟨("SNV".data), ("p.R137*".data), [], none⟩).variants = [] ∧
    (stepV2 ⟨[], [], []⟩ ⟨("SNV".data), ("p.R137*".data), [], none⟩).unparsed =
      [] ++ [mkName ("Arg".data) 137 terCode ++ (" (termination variant)".data)] := by
  have h := termination_variants_excluded.2.1 ⟨[], [], []⟩
    ⟨("SNV".data), ("p.R137*".data), [], none⟩ ("Arg".data) 137 rfl (by decide)
    (by decide) (by decide)
  exact ⟨h.1, h.2.1 (by decide)⟩

/-! ## Claim C4 -/

/-- C4: canonical identifiers in the accepted output are pairwise distinct,
and a row whose parsed canonical name is already in the seen-set leaves the
state unchanged (the later duplicate is silently dropped, so only the first
occurrence contributes a record). -/
theorem dedup_first_occurrence_wins :
    (∀ rows, ((extract_snv_variants_with_logging rows).1.map Variant.name).Nodup) ∧
    (∀ (st : StateV2) (r : Row) (ref : List Char) (pos : Nat) (alt : List Char),
      parseV2 (sourceOf r) = some (ref, pos, alt) →
      ref ∈ valid_three_letter → alt ∈ valid_three_letter →
      mkName ref pos alt ∈ st.seen → stepV2 st r = st) := by
  constructor
  · intro rows
    have hperm := (List.perm_insertionSort resLE (runV2 rows).variants).map Variant.name
    exact hperm.nodup_iff.mpr (runV2_inv rows).2.1
  · intro st r ref pos alt hp href halt hseen
    unfold stepV2
    by_cases h1 : r.variantType ≠ ("SNV".data)
    · simp only [if_pos h1]
    simp only [if_neg h1]
    by_cases h2 : sourceOf r = []
    · simp only [if_pos h2]
    simp only [if_neg h2]
    rw [hp]
    have h3 : ¬ ¬ (ref ∈ valid_three_letter ∧ alt ∈ valid_three_letter) :=
      not_not_intro ⟨href, halt⟩
    simp only [if_neg h3, if_pos hseen]

/-- Witness for C4: `"R137W"` parses to the name `p.Arg137Trp`, which is
already in the seen-set of the given state, so the step is the identity. -/
theorem dedup_first_occurrence_wins_witness :
    ((extract_snv_variants_with_logging
        [⟨("SNV".data), ("R137W".data), [], none⟩]).1.map Variant.name).Nodup ∧
    stepV2 ⟨[], [("p.Arg137Trp".data)], []⟩ ⟨("SNV".data), ("R137W".data), [], none⟩ =
      ⟨[], [("p.Arg137Trp".data)], []⟩ :=
  ⟨dedup_first_occurrence_wins.1 _,
   dedup_first_occurrence_wins.2 ⟨[], [("p.Arg137Trp".data)], []⟩
     ⟨("SNV".data), ("R137W".data), [], none⟩ ("Arg".data) 137 ("Trp".data)
     (by decide) (by decide) (by decide) (by decide)⟩

/-! ## Claim C5 -/

/-- C5: the accepted list returned by the extractor is sorted by residue
position (non-decreasing), and for every residue value the records with that
residue appear in the same order as in the pre-sort accumulation (stable
sort, ties keep input order). -/
theorem output_sorted_and_stable :
    ∀ rows : List Row,
      List.Sorted resLE (extract_snv_variants_with_logging rows).1 ∧
      ∀ k : Nat,
        (extract_snv_variants_with_logging rows).1.filter
            (fun w => decide (w.residue = k)) =
          (runV2 rows).variants.filter (fun w => decide (w.residue = k)) := by
  intro rows
  refine ⟨List.sorted_insertionSort resLE _, ?_⟩
  intro k
  exact filter_insertionSort_res k _

/-! ## Claim C10 -/

/-- C10 counterexample: on the row `"R137W"` the plain extractor (no bare
`X###X` fallback stage) accepts nothing, while the logging extractor accepts
`p.Arg137Trp` — the two accepted lists differ. -/
theorem logging_refinement_counterexample :
    extract_snv_variants [⟨("SNV".data), ("R137W".data), [], none⟩] = [] ∧
    (extract_snv_variants_with_logging [⟨("SNV".data), ("R137W".data), [], none⟩]).1 =
      [⟨("p.Arg137Trp".data), 137, ("Uncertain Significance".data), ("grey".data),
        none, none⟩] := by decide

theorem stepV1_stepV2_agree {r : Row} (hpe : parseV1 (sourceOf r) = parseV2 (sourceOf r))
    (st2 : StateV2) :
    (stepV1 ⟨st2.variants, st2.seen⟩ r).variants = (stepV2 st2 r).variants ∧
    (stepV1 ⟨st2.variants, st2.seen⟩ r).seen = (stepV2 st2 r).seen := by
  unfold stepV1 stepV2
  by_cases h1 : r.variantType ≠ ("SNV".data)
  · simp only [if_pos h1]; exact ⟨by trivial, by trivial⟩
  simp only [if_neg h1]
  by_cases h2 : sourceOf r = []
  · simp only [if_pos h2]; exact ⟨by trivial, by trivial⟩
  simp only [if_neg h2]
  rw [hpe]
  rcases hp : parseV2 (sourceOf r) with - | ⟨ref, pos, alt⟩
  · exact ⟨by trivial, by trivial⟩
  by_cases h3 : ¬ (ref ∈ valid_three_letter ∧ alt ∈ valid_three_letter)
  · simp only [if_pos h3]; exact ⟨by trivial, by trivial⟩
  simp only [if_neg h3]
  by_cases h4 : mkName ref pos alt ∈ st2.seen
  · simp only [if_pos h4]; exact ⟨by trivial, by trivial⟩
  simp only [if_neg h4]
  by_cases h5 : alt = terCode
  · simp only [if_pos h5]; exact ⟨by trivial, by trivial⟩
  · simp only [if_neg h5]; exact ⟨by trivial, by trivial⟩

theorem foldl_stepV1_stepV2_agree :
    ∀ (rows : List Row) (st2 : StateV2),
      (∀ r ∈ rows, parseV1 (sourceOf r) = parseV2 (sourceOf r)) →
      (rows.foldl stepV1 ⟨st2.variants, st2.seen⟩).variants =
        (rows.foldl stepV2 st2).variants := by
  intro rows
  induction rows with
  | nil => intro st2 _; rfl
  | cons r rows ih =>
    intro st2 h
    have hr := stepV1_stepV2_agree (h r (by simp)) st2
    have hst : stepV1 ⟨st2.variants, st2.seen⟩ r =
        ⟨(stepV2 st2 r).variants, (stepV2 st2 r).seen⟩ := by
      ext1
      · exact hr.1
      · exact hr.2
    rw [List.foldl_cons, List.foldl_cons, hst]
    exact ih (stepV2 st2 r) (fun x hx => h x (by simp [hx]))

/-- C10 (amended): the logging extractor preserves the accepted output of the
plain extractor on every input whose rows parse identically under the two
cascades; in general the cascades differ (the logging version adds fallback
stages and the `X` stop-code alternative), and the accepted lists can then
differ in either direction. -/
theorem logging_preserves_accepted_on_parser_agreement :
    ∀ rows : List Row,
      (∀ r ∈ rows, parseV1 (sourceOf r) = parseV2 (sourceOf r)) →
      extract_snv_variants rows = (extract_snv_variants_with_logging rows).1 := by
  intro rows h
  unfold extract_snv_variants extract_snv_variants_with_logging runV1 runV2
  rw [foldl_stepV1_stepV2_agree rows ⟨[], [], []⟩ h]

/-- Witness for C10 on the scenario row, where both cascades parse via the
parenthesized three-letter path. -/
theorem logging_preserves_accepted_witness :
    extract_snv_variants
        [⟨("SNV".data), ("HNF1B(NM_000458.4):c.544C>T (p.Arg182Trp)".data), [],
          some ("Pathogenic".data)⟩] =
      (extract_snv_variants_with_logging
        [⟨("SNV".data), ("HNF1B(NM_000458.4):c.544C>T (p.Arg182Trp)".data), [],
          some ("Pathogenic".data)⟩]).1 :=
  logging_preserves_accepted_on_parser_agreement _ (by decide)

/-! ## Claim C1 -/

theorem allNormal_foldl (sh : List ℚ → ℚ) :
    ∀ (groups : List GroupData) (acc : Bool),
      groups.foldl
        (fun acc g =>
          if 3 ≤ g.data.length then
            if sh g.data ≤ significanceLevel then false else acc
          else acc) acc =
      (acc && groups.all
        (fun g => !(decide (3 ≤ g.data.length) &&
          decide (sh g.data ≤ significanceLevel)))) := by
  intro groups
  induction groups with
  | nil => intro acc; simp
  | cons g gs ih =>
    intro acc
    rw [List.foldl_cons, ih, List.all_cons]
    by_cases h1 : 3 ≤ g.data.length
    · by_cases h2 : sh g.data ≤ significanceLevel
      · simp [h1, h2]
      · simp [h1, h2, Bool.and_comm, Bool.and_assoc, Bool.and_left_comm]
    · simp [h1, Bool.and_comm, Bool.and_assoc, Bool.and_left_comm]

/-- C1 (amended): the aggregate `all_groups_normal` flag is false exactly
when some group with at least 3 observations has a normality p-value at or
below 0.05 — groups with fewer than 3 observations are skipped by the
normality loop and do not affect the flag; under that failing condition the
recommendation is the Mann-Whitney U test for 2 groups and the
Kruskal-Wallis test for more than 2 groups, as claimed. -/
theorem test_selector_recommendation :
    ∀ (sh : List ℚ → ℚ) (lv : List (List ℚ) → ℚ) (groups : List GroupData),
      ((test_assumptions sh lv groups).allGroupsNormal = false ↔
        ∃ g ∈ groups, 3 ≤ g.data.length ∧ sh g.data ≤ significanceLevel) ∧
      (groups.length = 2 →
        (∃ g ∈ groups, 3 ≤ g.data.length ∧ sh g.data ≤ significanceLevel) →
        (test_assumptions sh lv groups).recommendedTest =
          some ("Mann-Whitney U test".data)) ∧
      (2 < groups.length →
        (∃ g ∈ groups, 3 ≤ g.data.length ∧ sh g.data ≤ significanceLevel) →
        (test_assumptions sh lv groups).recommendedTest =
          some ("Kruskal-Wallis test".data)) := by
  intro sh lv groups
  have hchar : (test_assumptions sh lv groups).allGroupsNormal = false ↔
      ∃ g ∈ groups, 3 ≤ g.data.length ∧ sh g.data ≤ significanceLevel := by
    simp only [test_assumptions]
    rw [allNormal_foldl sh groups true, Bool.true_and, ← Bool.not_eq_true,
      List.all_eq_true]
    push_neg
    constructor
    · rintro ⟨g, hg, hp⟩
      refine ⟨g, hg, ?_⟩
      simpa using hp
    · rintro ⟨g, hg, hp⟩
      refine ⟨g, hg, ?_⟩
      simpa using hp
  refine ⟨hchar, ?_, ?_⟩
  · intro hlen hex
    have hfalse := hchar.mpr hex
    simp only [test_assumptions] at hfalse ⊢
    rw [if_pos hlen, hfalse]
    simp
  · intro hlen hex
    have hfalse := hchar.mpr hex
    have hne2 : ¬ (groups.length = 2) := by omega
    simp only [test_assumptions] at hfalse ⊢
    rw [if_neg hne2, if_pos hlen, hfalse]
    simp

/-- C1 counterexample: a group of size 2 is untested, yet with the tested
group passing (p-value 1) the aggregate flag stays `true`, contradicting the
claimed "false … if any group is untested due to insufficient size". -/
theorem test_selector_untested_counterexample :
    (test_assumptions (fun _ => 1) (fun _ => 1)
        [⟨("A".data), [1, 2]⟩, ⟨("B".data), [1, 2, 3]⟩]).allGroupsNormal = true ∧
    (⟨("A".data), [1, 2]⟩ : GroupData) ∈
      ([⟨("A".data), [1, 2]⟩, ⟨("B".data), [1, 2, 3]⟩] : List GroupData) ∧
    (⟨("A".data), [1, 2]⟩ : GroupData).data.length < 3 := by decide

/-- Witness for C1 with a failing tested group (p-value 0): the flag is
false, two groups recommend Mann-Whitney U, three groups recommend
Kruskal-Wallis. -/
theorem test_selector_recommendation_witness :
    (test_assumptions (fun _ => 0) (fun _ => 1)
        [⟨("A".data), [1, 2, 3]⟩, ⟨("B".data), [4, 5, 6]⟩]).allGroupsNormal = false ∧
    (test_assumptions (fun _ => 0) (fun _ => 1)
        [⟨("A".data), [1, 2, 3]⟩, ⟨("B".data), [4, 5, 6]⟩]).recommendedTest =
      some ("Mann-Whitney U test".data) ∧
    (test_assumptions (fun _ => 0) (fun _ => 1)
        [⟨("A".data), [1, 2, 3]⟩, ⟨("B".data), [4, 5, 6]⟩,
         ⟨("C".data), [7, 8, 9]⟩]).recommendedTest =
      some ("Kruskal-Wallis test".data) := by
  have hex2 : ∃ g ∈ ([⟨("A".data), [1, 2, 3]⟩, ⟨("B".data), [4, 5, 6]⟩] :
      List GroupData), 3 ≤ g.data.length ∧ (fun (_ : List ℚ) => (0 : ℚ)) g.data ≤
        significanceLevel :=
    ⟨⟨("A".data), [1, 2, 3]⟩, by decide, by decide, by decide⟩
  have hex3 : ∃ g ∈ ([⟨("A".data), [1, 2, 3]⟩, ⟨("B".data), [4, 5, 6]⟩,
      ⟨("C".data), [7, 8, 9]⟩] : List GroupData), 3 ≤ g.data.length ∧
        (fun (_ : List ℚ) => (0 : ℚ)) g.data ≤ significanceLevel :=
    ⟨⟨("A".data), [1, 2, 3]⟩, by decide, by decide, by decide⟩
  have h2 := test_selector_recommendation (fun _ => 0) (fun _ => 1)
    [⟨("A".data), [1, 2, 3]⟩, ⟨("B".data), [4, 5, 6]⟩]
  have h3 := test_selector_recommendation (fun _ => 0) (fun _ => 1)
    [⟨("A".data), [1, 2, 3]⟩, ⟨("B".data), [4, 5, 6]⟩, ⟨("C".data), [7, 8, 9]⟩]
  exact ⟨h2.1.mpr hex2, h2.2.1 rfl hex2, h3.2.2 (by decide) hex3⟩

/-! ## Claim C6 -/

/-- C6: the 2-group branch computes rank-biserial correlation as
`1 − 2U/(n1·n2)` and the common-language effect size as `U/(n1·n2)`, and
under `0 ≤ U ≤ n1·n2` with `n1, n2 ≥ 1` the former lies in `[-1, 1]` and the
latter in `[0, 1]`. -/
theorem effect_sizes_formulas_and_bounds (u : ℚ) (n1 n2 : Nat)
    (h1 : 1 ≤ n1) (h2 : 1 ≤ n2) (h0 : 0 ≤ u) (hu : u ≤ (n1 : ℚ) * (n2 : ℚ)) :
    rank_biserial u n1 n2 = 1 - (2 * u) / ((n1 : ℚ) * (n2 : ℚ)) ∧
    cles_of u n1 n2 = u / ((n1 : ℚ) * (n2 : ℚ)) ∧
    -1 ≤ rank_biserial u n1 n2 ∧ rank_biserial u n1 n2 ≤ 1 ∧
    0 ≤ cles_of u n1 n2 ∧ cles_of u n1 n2 ≤ 1 := by
  have hn1 : (1 : ℚ) ≤ (n1 : ℚ) := by exact_mod_cast h1
  have hn2 : (1 : ℚ) ≤ (n2 : ℚ) := by exact_mod_cast h2
  have hN : (0 : ℚ) < (n1 : ℚ) * (n2 : ℚ) := by nlinarith
  have hc0 : 0 ≤ u / ((n1 : ℚ) * (n2 : ℚ)) := div_nonneg h0 (le_of_lt hN)
  have hc1 : u / ((n1 : ℚ) * (n2 : ℚ)) ≤ 1 := (div_le_one hN).mpr hu
  have hrw : (2 * u) / ((n1 : ℚ) * (n2 : ℚ)) = 2 * (u / ((n1 : ℚ) * (n2 : ℚ))) :=
    mul_div_assoc 2 u _
  refine ⟨rfl, rfl, ?_, ?_, hc0, hc1⟩
  · unfold rank_biserial
    rw [hrw]
    linarith
  · unfold rank_biserial
    rw [hrw]
    linarith

/-- Witness for C6 at `U = 3`, `n1 = 2`, `n2 = 3`. -/
theorem effect_sizes_formulas_and_bounds_witness :
    -1 ≤ rank_biserial 3 2 3 ∧ rank_biserial 3 2 3 ≤ 1 ∧
    0 ≤ cles_of 3 2 3 ∧ cles_of 3 2 3 ≤ 1 := by
  have h := effect_sizes_formulas_and_bounds 3 2 3 (by norm_num) (by norm_num)
    (by norm_num) (by norm_num)
  exact ⟨h.2.2.1, h.2.2.2.1, h.2.2.2.2.1, h.2.2.2.2.2⟩

/-! ## Claim C7 -/

/-- C7 (amended): the three reporting buckets jointly cover the unparsed
list and the `other` bucket is disjoint from both marker buckets; an entry
carrying at most one of the `c.` prefix and `IVS` marker lies in exactly one
bucket, but an entry carrying both appears in both marker buckets. -/
theorem unparsed_buckets_partition :
    ∀ (unparsed : List (List Char)) (v : List Char), v ∈ unparsed →
      (v ∈ cdna_variants unparsed ∨ v ∈ ivs_variants unparsed ∨
        v ∈ other_variants unparsed) ∧
      (v ∈ other_variants unparsed →
        v ∉ cdna_variants unparsed ∧ v ∉ ivs_variants unparsed) ∧
      (¬ (startsWithCDotS v = true ∧ containsIVS v = true) →
        ((v ∈ cdna_variants unparsed ∧ v ∉ ivs_variants unparsed ∧
            v ∉ other_variants unparsed) ∨
         (v ∉ cdna_variants unparsed ∧ v ∈ ivs_variants unparsed ∧
            v ∉ other_variants unparsed) ∨
         (v ∉ cdna_variants unparsed ∧ v ∉ ivs_variants unparsed ∧
            v ∈ other_variants unparsed))) := by
  intro unparsed v hv
  simp only [cdna_variants, ivs_variants, other_variants, List.mem_filter]
  cases hc : startsWithCDotS v <;> cases hi : containsIVS v <;> simp [hv, hc, hi]

/-- C7 counterexample: `"c.ivs"` starts with `c.` and contains `IVS` after
upper-casing, so it is listed in both the coding-notation bucket and the
intronic bucket — the buckets are not pairwise disjoint. -/
theorem unparsed_buckets_counterexample :
    ("c.ivs".data) ∈ cdna_variants [("c.ivs".data)] ∧
    ("c.ivs".data) ∈ ivs_variants [("c.ivs".data)] := by decide

/-- Witness for C7 at the singleton list `["c.100A>T"]`. -/
theorem unparsed_buckets_partition_witness :
    (("c.100A>T".data) ∈ cdna_variants [("c.100A>T".data)] ∨
      ("c.100A>T".data) ∈ ivs_variants [("c.100A>T".data)] ∨
      ("c.100A>T".data) ∈ other_variants [("c.100A>T".data)]) ∧
    (("c.100A>T".data) ∈ other_variants [("c.100A>T".data)] →
      ("c.100A>T".data) ∉ cdna_variants [("c.100A>T".data)] ∧
      ("c.100A>T".data) ∉ ivs_variants [("c.100A>T".data)]) ∧
    (¬ (startsWithCDotS ("c.100A>T".data) = true ∧
        containsIVS ("c.100A>T".data) = true) →
      ((("c.100A>T".data) ∈ cdna_variants [("c.100A>T".data)] ∧
          ("c.100A>T".data) ∉ ivs_variants [("c.100A>T".data)] ∧
          ("c.100A>T".data) ∉ other_variants [("c.100A>T".data)]) ∨
       (("c.100A>T".data) ∉ cdna_variants [("c.100A>T".data)] ∧
          ("c.100A>T".data) ∈ ivs_variants [("c.100A>T".data)] ∧
          ("c.100A>T".data) ∉ other_variants [("c.100A>T".data)]) ∨
       (("c.100A>T".data) ∉ cdna_variants [("c.100A>T".data)] ∧
          ("c.100A>T".data) ∉ ivs_variants [("c.100A>T".data)] ∧
          ("c.100A>T".data) ∈ other_variants [("c.100A>T".data)]))) :=
  unparsed_buckets_partition [("c.100A>T".data)] ("c.100A>T".data) (by decide)

/-! ## Claim C8 -/

/-- C8: the hypothesis verdict is `"SUPPORTED"` iff the P/LP median distance
is strictly lower than the VUS median, and `"NOT SUPPORTED"` otherwise. -/
theorem hypothesis_verdict_iff :
    ∀ plpMedian vusMedian : ℚ,
      (hypothesis_direction plpMedian vusMedian = ("SUPPORTED".data) ↔
        plpMedian < vusMedian) ∧
      (hypothesis_direction plpMedian vusMedian = ("NOT SUPPORTED".data) ↔
        ¬ plpMedian < vusMedian) := by
  intro p v
  have hne : ("SUPPORTED".data) ≠ ("NOT SUPPORTED".data) := by decide
  unfold hypothesis_direction
  by_cases h : p < v
  · rw [if_pos h]
    exact ⟨⟨fun _ => h, fun _ => rfl⟩,
      ⟨fun he => absurd he hne, fun hn => absurd h hn⟩⟩
  · rw [if_neg h]
    exact ⟨⟨fun he => absurd he.symm hne, fun h' => absurd h' h⟩,
      ⟨fun _ => h, fun _ => rfl⟩⟩

/-! ## Claim C9 -/

/-- Modelled from the spec: the external hypothesis-test provider
(`scipy.stats.mannwhitneyu`) raises a library `ValueError` on an empty
sample; the repository calls it with no guard or handler, so the error is
whatever the library raises. -/
def mwuLibraryModel : List ℚ → List ℚ → Except (List Char) (ℚ × ℚ) :=
  fun g1 g2 =>
    if g1.length = 0 ∨ g2.length = 0 then
      Except.error ("ValueError: x and y must be of nonzero size".data)
    else Except.ok (0, 1)

/-- C9 counterexample: with an empty side the implementation returns the
library's own error verbatim — there is no explicit "insufficient data"
failure anywhere in `perform_statistical_tests`. -/
theorem insufficient_data_counterexample :
    perform_mann_whitney mwuLibraryModel [] [1] =
      Except.error ("ValueError: x and y must be of nonzero size".data) ∧
    ("ValueError: x and y must be of nonzero size".data) ≠
      ("insufficient data".data) := by
  exact ⟨rfl, by decide⟩

/-- C9 (amended): the implementation has no insufficient-data guard — a
library error on the rank test propagates unchanged, and whenever the
library returns a statistic the test record is produced (rank tests run for
any group sizes the library accepts, including n = 1 per side). -/
theorem mann_whitney_no_guard :
    (∀ (mwu : List ℚ → List ℚ → Except (List Char) (ℚ × ℚ)) (g1 g2 : List ℚ)
        (e : List Char), mwu g1 g2 = Except.error e →
        perform_mann_whitney mwu g1 g2 = Except.error e) ∧
    (∀ (mwu : List ℚ → List ℚ → Except (List Char) (ℚ × ℚ)) (g1 g2 : List ℚ)
        (u p : ℚ), mwu g1 g2 = Except.ok (u, p) →
        perform_mann_whitney mwu g1 g2 = Except.ok
          ⟨u, p, rank_biserial u g1.length g2.length,
            cles_of u g1.length g2.length, decide (p < significanceLevel)⟩) := by
  constructor
  · intro mwu g1 g2 e he
    unfold perform_mann_whitney
    rw [he]
  · intro mwu g1 g2 u p hok
    unfold perform_mann_whitney
    rw [hok]

/-- Witness for C9: the library model errors on an empty side and succeeds
on singleton sides. -/
theorem mann_whitney_no_guard_witness :
    perform_mann_whitney mwuLibraryModel [] [1] =
      Except.error ("ValueError: x and y must be of nonzero size".data) ∧
    perform_mann_whitney mwuLibraryModel [1] [2] =
      Except.ok ⟨0, 1, rank_biserial 0 1 1, cles_of 0 1 1,
        decide ((1 : ℚ) < significanceLevel)⟩ :=
  ⟨mann_whitney_no_guard.1 mwuLibraryModel [] [1] _ rfl,
   mann_whitney_no_guard.2 mwuLibraryModel [1] [2] 0 1 rfl⟩

end HNF1B
